import Mathlib

/-!
Shallow embedding of `phablytics/reports.py`: the two report generators
(`RevisionStatusReport`, `UpcomingProjectTasksDueReport`) and the report
registry, together with proofs about their classification, harvesting,
lookup, sorting and rendering behaviour.

External collaborators (`fetch_differential_revisions`, `get_users_by_phid`,
`get_repos_by_phid`, `get_maniphest_tasks_by_project_name`, ...) live in
`phablytics/utils.py` and `phablytics/settings.py`, which are not part of the
sources here; they are modelled as explicit function parameters, and the
record types they produce (`Revision`, `Task`, `User`, `Repo`) are modelled
from the specification's data model. Python's dictionary indexing (which
raises `KeyError` on a miss) is modelled with `Option`: a lookup table is a
function `String → Option _`, and any rendering step that would raise
propagates `none` through the whole report.
-/

namespace Phablytics

/-- User record: identifier resolved to a display name (spec data model). -/
structure User where
  name : String
  deriving DecidableEq

/-- Repository record: identifier resolved to a human-readable name. -/
structure Repo where
  readable_name : String
  deriving DecidableEq

/-- Revision record as consumed by `RevisionStatusReport.generate_report`
(modelled from the spec data model; produced by `fetch_differential_revisions`
in the absent `utils.py`): identifier/title/url, modification timestamp,
author, reviewer/acceptor/blocker identifier lists, repository identifier and
the two classification booleans. -/
structure Revision where
  title : String
  url : String
  revision_id : String
  modified_ts : Int
  author_phid : String
  reviewer_phids : List String
  acceptor_phids : List String
  blocker_phids : List String
  repo_phid : String
  meets_acceptance_criteria : Bool
  is_wip : Bool
  deriving DecidableEq

/-- Task record as consumed by `UpcomingProjectTasksDueReport.generate_report`
(modelled from the spec data model). `id_` is the identifier matched against
the static exclusion set; `task_id` is the provider-assigned display
identifier used in the rendered link. -/
structure Task where
  id_ : Nat
  name : String
  url : String
  task_id : String
  deriving DecidableEq

/-- The mutable state threaded through the classification loop of
`RevisionStatusReport.generate_report` (lines 59-74): the two local bucket
lists plus the instance-level identifier accumulators `self.user_phids` /
`self.repo_phids`. -/
structure ScanState where
  revisions_accepted : List Revision
  revisions_todo : List Revision
  user_phids : List String
  repo_phids : List String
  deriving DecidableEq

/-- One iteration of the `for revision in active_revisions` loop: classify
into accepted / skip (WIP) / todo, then `_add_users(revision.reviewer_phids)`,
`_add_users([revision.author_phid])` and `_add_repo(revision.repo_phid)`. -/
def scanStep (s : ScanState) (revision : Revision) : ScanState :=
  let s1 :=
    if revision.meets_acceptance_criteria then
      { s with revisions_accepted := s.revisions_accepted ++ [revision] }
    else if revision.is_wip then
      s
    else
      { s with revisions_todo := s.revisions_todo ++ [revision] }
  { s1 with
      user_phids := s1.user_phids ++ (revision.reviewer_phids ++ [revision.author_phid]),
      repo_phids := s1.repo_phids ++ [revision.repo_phid] }

/-- The whole classification loop, starting from state `s`. -/
def scanFrom (s : ScanState) (active_revisions : List Revision) : ScanState :=
  active_revisions.foldl scanStep s

/-- The classification loop as run by `generate_report`: bucket lists start
empty (they are locals), accumulators start from the instance state. -/
def scanRevisions (active_revisions : List Revision) : ScanState :=
  scanFrom ⟨[], [], [], []⟩ active_revisions

/-- All user identifiers harvested by one pass of the loop, in harvest order:
for each revision its reviewers then its author. -/
def harvestUsers (revs : List Revision) : List String :=
  (revs.map (fun r => r.reviewer_phids ++ [r.author_phid])).flatten

/-- All repository identifiers harvested by one pass of the loop. -/
def harvestRepos (revs : List Revision) : List String :=
  revs.map (fun r => r.repo_phid)

/-- Bucket predicate for `revisions_accepted`. -/
def isAccepted (r : Revision) : Bool :=
  r.meets_acceptance_criteria

/-- Bucket predicate for `revisions_todo`. -/
def isTodo (r : Revision) : Bool :=
  !r.meets_acceptance_criteria && !r.is_wip

/-- Python list comprehension over `Option`-valued lookups, evaluated left to
right: the first miss (a `KeyError` in the source) aborts the whole list. -/
def mapOpt (f : α → Option β) : List α → Option (List β)
  | [] => some []
  | x :: xs =>
    match f x, mapOpt f xs with
    | some y, some ys => some (y :: ys)
    | _, _ => none

/-- Formats `f'`{self.users_lookup[phid].name}`'` for one reviewer identifier. -/
def lookupName (users_lookup : String → Option User) (phid : String) : Option String :=
  (users_lookup phid).map (fun u => "`" ++ u.name ++ "`")

/-- First line of a revision block:
`f'{count}. _{revision.title}_ (<{revision.url}|{revision.revision_id}>) by `{author.name}` on `{repo.readable_name}`'`. -/
def revisionLine1 (r : Revision) (count : Nat) (repo : Repo) (author : User) : String :=
  toString count ++ ". " ++
    ("_" ++ r.title ++ "_ (<" ++ r.url ++ "|" ++ r.revision_id ++ ">) by `" ++
      author.name ++ "` on `" ++ repo.readable_name ++ "`")

/-- Formats `f":white_check_mark: accepted by {', '.join(acceptors)}"`. -/
def acceptedClause (acceptors : List String) : String :=
  ":white_check_mark: accepted by " ++ String.intercalate ", " acceptors

/-- Formats `f":no_entry_sign: blocked by {', '.join(blockers)}"`. -/
def blockedClause (blockers : List String) : String :=
  ":no_entry_sign: blocked by " ++ String.intercalate ", " blockers

/-- The `reviewers_msg` fragment list: acceptor clause if any acceptors, then
`'; '` if both clauses present, then blocker clause if any blockers. -/
def reviewersMsg (acceptors blockers : List String) : List String :=
  (if acceptors.length > 0 then [acceptedClause acceptors] else []) ++
  (if blockers.length > 0 then
    (if acceptors.length > 0 then ["; "] else []) ++ [blockedClause blockers]
  else [])

/-- The lines appended to `report` for one revision once all lookups resolved:
the numbered line, the indented reviewer-status line when `reviewers_msg` is
non-empty, and the trailing blank line. -/
def formatLines (r : Revision) (count : Nat) (repo : Repo) (author : User)
    (acceptors blockers : List String) : List String :=
  [revisionLine1 r count repo author] ++
    (if (reviewersMsg acceptors blockers).length > 0 then
      ["    " ++ String.join (reviewersMsg acceptors blockers)]
    else []) ++
    [""]

/-- Models `_format_and_append_revision_to_report` (lines 82-105): resolves the
repository, author, acceptor and blocker identifiers against the lookup
tables (a miss raises, i.e. yields `none`) and produces the block of lines
appended to the report. -/
def formatRevision (users_lookup : String → Option User)
    (repos_lookup : String → Option Repo) (r : Revision) (count : Nat) :
    Option (List String) :=
  match repos_lookup r.repo_phid, users_lookup r.author_phid,
      mapOpt (lookupName users_lookup) r.acceptor_phids,
      mapOpt (lookupName users_lookup) r.blocker_phids with
  | some repo, some author, some acceptors, some blockers =>
    some (formatLines r count repo author acceptors blockers)
  | _, _, _, _ => none

/-- One section's `for revision in sorted(...)` loop: `count` starts at
`count0` (0 in the source) and is incremented before each revision is
formatted; the blocks are kept separate here for block-level reasoning. -/
def blocksFrom (users_lookup : String → Option User)
    (repos_lookup : String → Option Repo) (count0 : Nat) :
    List Revision → Option (List (List String))
  | [] => some []
  | r :: rs =>
    match formatRevision users_lookup repos_lookup r (count0 + 1),
        blocksFrom users_lookup repos_lookup (count0 + 1) rs with
    | some b, some bs => some (b :: bs)
    | _, _ => none

/-- Models `sorted(revisions_accepted, key=lambda r: r.modified_ts)`: Python's
stable ascending sort, modelled by stable insertion sort on the key. -/
def sortAccepted (l : List Revision) : List Revision :=
  List.insertionSort (fun a b => a.modified_ts ≤ b.modified_ts) l

/-- Models `sorted(revisions_todo, key=lambda r: r.modified_ts, reverse=True)`:
Python's stable descending sort. -/
def sortTodo (l : List Revision) : List Revision :=
  List.insertionSort (fun a b => b.modified_ts ≤ a.modified_ts) l

/-- Header line of the accepted section. -/
def acceptedHeader : String :=
  ":white_check_mark: *Accepted and Ready to Land*: _(oldest first)_"

/-- Header line of the needs-review section. -/
def todoHeader : String :=
  ":warning: *Needs Review*: _(newest first)_"

/-- Accepted section (lines 107-113): rendered only when non-empty; header,
the numbered blocks over the ascending-sorted revisions, and a trailing
blank line. -/
def acceptedPart (users_lookup : String → Option User)
    (repos_lookup : String → Option Repo) (revisions_accepted : List Revision) :
    Option (List String) :=
  if revisions_accepted.length > 0 then
    match blocksFrom users_lookup repos_lookup 0 (sortAccepted revisions_accepted) with
    | some bs => some (acceptedHeader :: bs.flatten ++ [""])
    | none => none
  else some []

/-- Needs-review section (lines 115-126): rendered only when non-empty; a
blank separator line first when the accepted section was rendered, then
header, the numbered blocks over the descending-sorted revisions, and a
trailing blank line. -/
def todoPart (users_lookup : String → Option User)
    (repos_lookup : String → Option Repo)
    (revisions_accepted revisions_todo : List Revision) :
    Option (List String) :=
  if revisions_todo.length > 0 then
    match blocksFrom users_lookup repos_lookup 0 (sortTodo revisions_todo) with
    | some bs =>
      some ((if revisions_accepted.length > 0 then [""] else []) ++
        todoHeader :: bs.flatten ++ [""])
    | none => none
  else some []

/-- The full `report` line list built by lines 79-126. -/
def generateReportLines (users_lookup : String → Option User)
    (repos_lookup : String → Option Repo)
    (revisions_accepted revisions_todo : List Revision) :
    Option (List String) :=
  match acceptedPart users_lookup repos_lookup revisions_accepted,
      todoPart users_lookup repos_lookup revisions_accepted revisions_todo with
  | some p1, some p2 => some (p1 ++ p2)
  | _, _ => none

/-- Models `'\n'.join(report)` (the utf-8 encode/decode round trip is a no-op). -/
def generateReportText (users_lookup : String → Option User)
    (repos_lookup : String → Option Repo)
    (revisions_accepted revisions_todo : List Revision) : Option String :=
  (generateReportLines users_lookup repos_lookup revisions_accepted
    revisions_todo).map (String.intercalate "\n")

/-- Instance state of `RevisionStatusReport`: `__init__` sets the two
identifier accumulators to `[]` and both lookup tables to `None`. -/
structure RevisionStatusReport where
  repo_phids : List String
  user_phids : List String
  users_lookup : Option (String → Option User)
  repos_lookup : Option (String → Option Repo)

/-- Models `RevisionStatusReport.__init__`. -/
def RevisionStatusReport.init : RevisionStatusReport :=
  { repo_phids := [], user_phids := [], users_lookup := none, repos_lookup := none }

/-- Models `RevisionStatusReport.generate_report`, with the external collaborators
passed explicitly: `get_users` / `get_repos` model `get_users_by_phid` /
`get_repos_by_phid` (batch identifier list in, lookup table out) and
`active_revisions` is the result of `fetch_differential_revisions`. Returns
the report text (`none` models an uncaught exception) together with the
instance state after the call. -/
def RevisionStatusReport.generate_report
    (get_users : List String → String → Option User)
    (get_repos : List String → String → Option Repo)
    (self : RevisionStatusReport) (active_revisions : List Revision) :
    Option String × RevisionStatusReport :=
  let scan := scanFrom
    { revisions_accepted := [], revisions_todo := [],
      user_phids := self.user_phids, repo_phids := self.repo_phids }
    active_revisions
  let users_lookup := get_users scan.user_phids
  let repos_lookup := get_repos scan.repo_phids
  (generateReportText users_lookup repos_lookup scan.revisions_accepted
      scan.revisions_todo,
    { repo_phids := scan.repo_phids, user_phids := scan.user_phids,
      users_lookup := some users_lookup, repos_lookup := some repos_lookup })

/-- Python `datetime.datetime` restricted to what line 53 manipulates: the
date part is an absolute day number (calendar arithmetic is irrelevant
here), plus the four time-of-day components `hour`, `minute`, `second`,
`microsecond`. -/
structure DateTime where
  day : Int
  hour : Nat
  minute : Nat
  second : Nat
  microsecond : Nat
  deriving DecidableEq

/-- Models `dt - datetime.timedelta(days=n)`: a whole-day delta changes only the
date part and leaves every time-of-day component intact. -/
def DateTime.subDays (dt : DateTime) (n : Nat) : DateTime :=
  { dt with day := dt.day - n }

/-- Models `dt.replace(hour=0, minute=0, second=0)`: Python's `replace` substitutes
exactly the named fields and copies every other field unchanged. -/
def DateTime.replaceHMS (dt : DateTime) : DateTime :=
  { dt with hour := 0, minute := 0, second := 0 }

/-- The cutoff `date_created` computed at line 53:
`(datetime.datetime.now() - datetime.timedelta(days=REVISION_AGE_THRESHOLD_DAYS)).replace(hour=0, minute=0, second=0)`,
with `now` and the configured day threshold as parameters. -/
def dateCreated (now : DateTime) (threshold_days : Nat) : DateTime :=
  (now.subDays threshold_days).replaceHMS

/-- Models `_should_include` (lines 163-174): a task survives iff its identifier is
not in the static exclusion set and no custom exclusion predicate returns
true for it. The exclusion set and predicate list model the absent
`settings.py` constants `UPCOMING_PROJECT_TASKS_DUE_REPORT_EXCLUDED_TASKS`
and `UPCOMING_PROJECT_TASKS_DUE_REPORT_CUSTOM_EXCLUSIONS`. -/
def shouldInclude (excluded_tasks : List Nat)
    (custom_exclusions : List (Task → Bool)) (task : Task) : Bool :=
  !(excluded_tasks.contains task.id_) &&
    !(custom_exclusions.any (fun custom_exclusion => custom_exclusion task))

/-- Header line of the tasks report:
`f"*{self.project_name} - {', '.join(self.columns)} - Tasks Due Soon*"`. -/
def upcomingHeader (project_name : String) (columns : List String) : String :=
  "*" ++ project_name ++ " - " ++ String.intercalate ", " columns ++
    " - Tasks Due Soon*"

/-- One numbered task line:
`f'{count}. _{task.name}_ (<{task.url}|{task.task_id}>)'`. -/
def taskLine (count : Nat) (task : Task) : String :=
  toString count ++ ". " ++
    ("_" ++ task.name ++ "_ (<" ++ task.url ++ "|" ++ task.task_id ++ ">)")

/-- The numbered lines of the surviving tasks, `count` starting at `count0`
(0 in the source) and incremented before each line. -/
def taskLinesFrom (count0 : Nat) : List Task → List String
  | [] => []
  | t :: ts => taskLine (count0 + 1) t :: taskLinesFrom (count0 + 1) ts

/-- The `report` line list of
`UpcomingProjectTasksDueReport.generate_report` (lines 176-185): the header,
then one numbered line per task surviving the filter, in fetch order. The
fetched task list (produced by `get_maniphest_tasks_by_project_name`, which
applies the configured ordering externally) is a parameter. -/
def upcomingReportLines (project_name : String) (columns : List String)
    (excluded_tasks : List Nat) (custom_exclusions : List (Task → Bool))
    (maniphest_tasks : List Task) : List String :=
  upcomingHeader project_name columns ::
    taskLinesFrom 0
      (maniphest_tasks.filter (shouldInclude excluded_tasks custom_exclusions))

/-- Models `UpcomingProjectTasksDueReport.generate_report`: the joined report text
(the utf-8 encode/decode round trip is a no-op). -/
def upcomingGenerateReport (project_name : String) (columns : List String)
    (excluded_tasks : List Nat) (custom_exclusions : List (Task → Bool))
    (maniphest_tasks : List Task) : String :=
  String.intercalate "\n"
    (upcomingReportLines project_name columns excluded_tasks custom_exclusions
      maniphest_tasks)

/-- All identifiers a revision makes `_format_and_append_revision_to_report`
index into the lookup tables: its repository, its author, every acceptor and
every blocker. `true` iff every one of them is present in its table. -/
def revisionResolved (users_lookup : String → Option User)
    (repos_lookup : String → Option Repo) (r : Revision) : Bool :=
  (repos_lookup r.repo_phid).isSome && (users_lookup r.author_phid).isSome &&
    r.acceptor_phids.all (fun p => (users_lookup p).isSome) &&
    r.blocker_phids.all (fun p => (users_lookup p).isSome)

/-! Concrete collaborators and records used to evaluate the theorems on
closed inputs. -/

/-- A `get_users_by_phid` collaborator that resolves every identifier. -/
def demoGetUsers : List String → String → Option User :=
  fun _ phid => some { name := "user-" ++ phid }

/-- A `get_repos_by_phid` collaborator that resolves every identifier. -/
def demoGetRepos : List String → String → Option Repo :=
  fun _ phid => some { readable_name := "repo-" ++ phid }

/-- A `get_users_by_phid` collaborator whose lookup table has exactly the
requested identifiers as its domain: an entry for every identifier asked
for, nothing else. -/
def memGetUsers : List String → String → Option User :=
  fun phids phid =>
    if phids.contains phid then some { name := "user-" ++ phid } else none

/-- A `get_repos_by_phid` collaborator with exactly the requested
identifiers as its domain. -/
def memGetRepos : List String → String → Option Repo :=
  fun phids phid =>
    if phids.contains phid then some { readable_name := "repo-" ++ phid } else none

/-- Accepted revision (also WIP, to exercise the precedence of the
acceptance check over the WIP flag). -/
def revAccepted : Revision :=
  { title := "fix parser", url := "https://ph/D1", revision_id := "D1",
    modified_ts := 2, author_phid := "alice", reviewer_phids := ["bob"],
    acceptor_phids := ["bob"], blocker_phids := [], repo_phid := "repoA",
    meets_acceptance_criteria := true, is_wip := true }

/-- Needs-review revision. -/
def revTodo : Revision :=
  { title := "add tests", url := "https://ph/D2", revision_id := "D2",
    modified_ts := 5, author_phid := "carol", reviewer_phids := ["dave"],
    acceptor_phids := [], blocker_phids := ["dave"], repo_phid := "repoB",
    meets_acceptance_criteria := false, is_wip := false }

/-- WIP revision that does not meet acceptance criteria: rendered nowhere. -/
def revWip : Revision :=
  { title := "wip thing", url := "https://ph/D3", revision_id := "D3",
    modified_ts := 1, author_phid := "erin", reviewer_phids := [],
    acceptor_phids := [], blocker_phids := [], repo_phid := "repoC",
    meets_acceptance_criteria := false, is_wip := true }

/-- A second accepted revision, older than `revAccepted`, for the ordering
theorems. -/
def revAccepted2 : Revision :=
  { title := "older accepted", url := "https://ph/D4", revision_id := "D4",
    modified_ts := 1, author_phid := "alice", reviewer_phids := [],
    acceptor_phids := [], blocker_phids := [], repo_phid := "repoA",
    meets_acceptance_criteria := true, is_wip := false }

/-- An accepted revision whose acceptor identifier is neither a reviewer nor
the author of any fetched revision, so the harvesting pass never requests
it from `get_users_by_phid`. -/
def revStrayAcceptor : Revision :=
  { title := "stray", url := "https://ph/D9", revision_id := "D9",
    modified_ts := 3, author_phid := "alice", reviewer_phids := [],
    acceptor_phids := ["ghost"], blocker_phids := [], repo_phid := "repoA",
    meets_acceptance_criteria := true, is_wip := false }

/-- A concrete `datetime.now()` value with a non-zero microsecond part. -/
def demoNow : DateTime :=
  { day := 738000, hour := 13, minute := 45, second := 10, microsecond := 123456 }

/-- Demo tasks for the tasks-due report. -/
def taskKeep : Task :=
  { id_ := 11, name := "ship release", url := "https://ph/T11", task_id := "T11" }

/-- A task whose identifier sits in the static exclusion set. -/
def taskExcluded : Task :=
  { id_ := 42, name := "excluded", url := "https://ph/T42", task_id := "T42" }

/-- A task rejected by a custom exclusion predicate. -/
def taskCustomExcluded : Task :=
  { id_ := 13, name := "custom-excluded", url := "https://ph/T13", task_id := "T13" }

/-- A custom exclusion predicate matching `taskCustomExcluded` only. -/
def demoCustomExclusion : Task → Bool :=
  fun task => task.id_ == 13

/-! ## Helper lemmas -/

theorem scanFrom_cons (s : ScanState) (r : Revision) (rs : List Revision) :
    scanFrom s (r :: rs) = scanFrom (scanStep s r) rs := rfl

/-- Full characterisation of the classification loop: buckets are filters of
the input appended to the incoming buckets, and both accumulators are
extended by the harvested identifiers of every scanned revision. -/
theorem scanFrom_spec (revs : List Revision) (s : ScanState) :
    scanFrom s revs =
      { revisions_accepted := s.revisions_accepted ++ revs.filter isAccepted,
        revisions_todo := s.revisions_todo ++ revs.filter isTodo,
        user_phids := s.user_phids ++ harvestUsers revs,
        repo_phids := s.repo_phids ++ harvestRepos revs } := by
  induction revs generalizing s with
  | nil =>
    simp [scanFrom, harvestUsers, harvestRepos]
  | cons r rs ih =>
    rw [scanFrom_cons, ih]
    unfold scanStep isAccepted isTodo harvestUsers harvestRepos
    by_cases hacc : r.meets_acceptance_criteria = true
    · simp [hacc]
    · by_cases hwip : r.is_wip = true <;>
        simp [hacc, hwip, Bool.not_eq_true]

theorem mem_harvestUsers_author {r : Revision} {revs : List Revision}
    (h : r ∈ revs) : r.author_phid ∈ harvestUsers revs := by
  simp only [harvestUsers, List.mem_flatten]
  exact ⟨r.reviewer_phids ++ [r.author_phid], List.mem_map_of_mem _ h, by simp⟩

theorem mem_harvestUsers_reviewer {r : Revision} {revs : List Revision}
    {p : String} (h : r ∈ revs) (hp : p ∈ r.reviewer_phids) :
    p ∈ harvestUsers revs := by
  simp only [harvestUsers, List.mem_flatten]
  exact ⟨r.reviewer_phids ++ [r.author_phid], List.mem_map_of_mem _ h, by simp [hp]⟩

theorem mem_harvestRepos {r : Revision} {revs : List Revision}
    (h : r ∈ revs) : r.repo_phid ∈ harvestRepos revs :=
  List.mem_map_of_mem _ h

theorem mapOpt_isSome (f : α → Option β) (xs : List α) :
    (mapOpt f xs).isSome = xs.all (fun x => (f x).isSome) := by
  induction xs with
  | nil => rfl
  | cons x xs ih =>
    simp only [mapOpt, List.all_cons, ← ih]
    cases f x <;> cases mapOpt f xs <;> simp

theorem mapOpt_length {f : α → Option β} {xs : List α} {ys : List β}
    (h : mapOpt f xs = some ys) : ys.length = xs.length := by
  induction xs generalizing ys with
  | nil =>
    simp only [mapOpt] at h
    obtain rfl := Option.some_inj.mp h
    rfl
  | cons x xs ih =>
    simp only [mapOpt] at h
    cases hx : f x with
    | none => rw [hx] at h; exact absurd h (by simp)
    | some y =>
      rw [hx] at h
      cases hxs : mapOpt f xs with
      | none => rw [hxs] at h; exact absurd h (by simp)
      | some ys₀ =>
        rw [hxs] at h
        obtain rfl := Option.some_inj.mp h
        simp [ih hxs]

/-- Resolving the backticked reviewer names succeeds exactly when every
requested identifier is present in the user lookup table. -/
theorem mapOpt_lookupName_isSome (users_lookup : String → Option User)
    (phids : List String) :
    (mapOpt (lookupName users_lookup) phids).isSome =
      phids.all (fun p => (users_lookup p).isSome) := by
  rw [mapOpt_isSome]
  induction phids with
  | nil => rfl
  | cons p ps ih => simp [lookupName, ih]

/-- A revision's block resolves exactly when every identifier it references
is present in its lookup table. -/
theorem formatRevision_isSome (users_lookup : String → Option User)
    (repos_lookup : String → Option Repo) (r : Revision) (count : Nat) :
    (formatRevision users_lookup repos_lookup r count).isSome =
      revisionResolved users_lookup repos_lookup r := by
  unfold formatRevision revisionResolved
  rw [← mapOpt_lookupName_isSome users_lookup r.acceptor_phids,
    ← mapOpt_lookupName_isSome users_lookup r.blocker_phids]
  cases repos_lookup r.repo_phid <;> cases users_lookup r.author_phid <;>
    cases mapOpt (lookupName users_lookup) r.acceptor_phids <;>
    cases mapOpt (lookupName users_lookup) r.blocker_phids <;> simp

/-- The first line of a resolved block is the sequence number followed by
`. ` and the rest of the formatted line. -/
theorem formatRevision_head {users_lookup : String → Option User}
    {repos_lookup : String → Option Repo} {r : Revision} {count : Nat}
    {ls : List String}
    (h : formatRevision users_lookup repos_lookup r count = some ls) :
    ∃ rest, ls.head? = some (toString count ++ ". " ++ rest) := by
  unfold formatRevision at h
  cases h1 : repos_lookup r.repo_phid <;> rw [h1] at h <;>
    cases h2 : users_lookup r.author_phid <;> rw [h2] at h <;>
    cases h3 : mapOpt (lookupName users_lookup) r.acceptor_phids <;> rw [h3] at h <;>
    cases h4 : mapOpt (lookupName users_lookup) r.blocker_phids <;> rw [h4] at h <;>
    simp only [reduceCtorEq] at h
  cases Option.some_inj.mp h
  exact ⟨_, rfl⟩

/-- The section loop resolves exactly when every revision of the section
resolves. -/
theorem blocksFrom_isSome (users_lookup : String → Option User)
    (repos_lookup : String → Option Repo) (count0 : Nat) (revs : List Revision) :
    (blocksFrom users_lookup repos_lookup count0 revs).isSome =
      revs.all (revisionResolved users_lookup repos_lookup) := by
  induction revs generalizing count0 with
  | nil => rfl
  | cons r rs ih =>
    simp only [blocksFrom, List.all_cons, ← ih (count0 + 1),
      ← formatRevision_isSome users_lookup repos_lookup r (count0 + 1)]
    cases formatRevision users_lookup repos_lookup r (count0 + 1) <;>
      cases blocksFrom users_lookup repos_lookup (count0 + 1) rs <;> simp

/-- Sequence numbering of the section loop: the `i`-th rendered block (0
based) starts with sequence number `count0 + i + 1`. -/
theorem blocksFrom_numbering {users_lookup : String → Option User}
    {repos_lookup : String → Option Repo} {count0 : Nat} {revs : List Revision}
    {bs : List (List String)}
    (h : blocksFrom users_lookup repos_lookup count0 revs = some bs) :
    bs.length = revs.length ∧
      ∀ i (hi : i < bs.length), ∃ rest,
        (bs.get ⟨i, hi⟩).head? = some (toString (count0 + i + 1) ++ ". " ++ rest) := by
  induction revs generalizing count0 bs with
  | nil =>
    simp only [blocksFrom] at h
    obtain rfl := Option.some_inj.mp h
    exact ⟨rfl, by intro i hi; exact absurd hi (by simp)⟩
  | cons r rs ih =>
    simp only [blocksFrom] at h
    cases hb : formatRevision users_lookup repos_lookup r (count0 + 1) with
    | none => rw [hb] at h; exact absurd h (by simp)
    | some b =>
      rw [hb] at h
      cases hbs : blocksFrom users_lookup repos_lookup (count0 + 1) rs with
      | none => rw [hbs] at h; exact absurd h (by simp)
      | some bs₀ =>
        rw [hbs] at h
        obtain rfl := Option.some_inj.mp h
        obtain ⟨hlen, hnum⟩ := ih hbs
        refine ⟨by simp [hlen], ?i⟩
        intro i hi
        match i with
        | 0 =>
          obtain ⟨rest, hrest⟩ := formatRevision_head hb
          exact ⟨rest, by simpa using hrest⟩
        | j + 1 =>
          obtain ⟨rest, hrest⟩ := hnum j (by simpa using hi)
          refine ⟨rest, ?e⟩
          have : count0 + 1 + j + 1 = count0 + (j + 1) + 1 := by omega
          rw [← this]
          simpa using hrest

theorem sortAccepted_perm (l : List Revision) : (sortAccepted l).Perm l :=
  List.perm_insertionSort _ l

theorem sortTodo_perm (l : List Revision) : (sortTodo l).Perm l :=
  List.perm_insertionSort _ l

theorem sortAccepted_sorted (l : List Revision) :
    List.Sorted (fun a b : Revision => a.modified_ts ≤ b.modified_ts)
      (sortAccepted l) := by
  have h1 : IsTotal Revision (fun a b => a.modified_ts ≤ b.modified_ts) :=
    ⟨fun a b => le_total _ _⟩
  have h2 : IsTrans Revision (fun a b => a.modified_ts ≤ b.modified_ts) :=
    ⟨fun a b c hab hbc => le_trans hab hbc⟩
  exact List.sorted_insertionSort _ l

theorem sortTodo_sorted (l : List Revision) :
    List.Sorted (fun a b : Revision => b.modified_ts ≤ a.modified_ts)
      (sortTodo l) := by
  have h1 : IsTotal Revision (fun a b => b.modified_ts ≤ a.modified_ts) :=
    ⟨fun a b => le_total _ _⟩
  have h2 : IsTrans Revision (fun a b => b.modified_ts ≤ a.modified_ts) :=
    ⟨fun a b c hab hbc => le_trans hbc hab⟩
  exact List.sorted_insertionSort _ l

theorem all_perm (p : Revision → Bool) {l l₂ : List Revision}
    (hp : l.Perm l₂) : l.all p = l₂.all p := by
  cases hb : l₂.all p
  · rw [Bool.eq_false_iff]
    intro hl
    rw [List.all_eq_true] at hl
    have : l₂.all p = true :=
      List.all_eq_true.mpr fun x hx => hl x (hp.mem_iff.mpr hx)
    rw [this] at hb
    exact Bool.noConfusion hb
  · rw [List.all_eq_true] at hb ⊢
    exact fun x hx => hb x (hp.mem_iff.mp hx)

theorem all_sortAccepted (p : Revision → Bool) (l : List Revision) :
    (sortAccepted l).all p = l.all p :=
  all_perm p (sortAccepted_perm l)

theorem all_sortTodo (p : Revision → Bool) (l : List Revision) :
    (sortTodo l).all p = l.all p :=
  all_perm p (sortTodo_perm l)

theorem intercalate_go_append (s : String) :
    ∀ (l : List String) (a : String),
      ∃ rest, String.intercalate.go a s l = a ++ rest := by
  intro l
  induction l with
  | nil => intro a; exact ⟨"", by simp [String.intercalate.go]⟩
  | cons x xs ih =>
    intro a
    obtain ⟨r, hr⟩ := ih (a ++ s ++ x)
    refine ⟨s ++ x ++ r, ?h⟩
    show String.intercalate.go (a ++ s ++ x) s xs = _
    rw [hr, String.append_assoc, String.append_assoc, String.append_assoc]

/-- Joining a non-empty line list with `'\n'.join` starts with its first line. -/
theorem intercalate_cons_head (h : String) (l : List String) :
    ∃ rest, String.intercalate "\n" (h :: l) = h ++ rest := by
  simpa [String.intercalate] using intercalate_go_append "\n" l h

theorem taskLinesFrom_length (count0 : Nat) (ts : List Task) :
    (taskLinesFrom count0 ts).length = ts.length := by
  induction ts generalizing count0 with
  | nil => rfl
  | cons t ts ih => simp [taskLinesFrom, ih]

theorem taskLinesFrom_get? (ts : List Task) (count0 i : Nat)
    (hi : i < ts.length) :
    (taskLinesFrom count0 ts).get? i =
      some (taskLine (count0 + i + 1) (ts.get ⟨i, hi⟩)) := by
  induction ts generalizing count0 i with
  | nil => exact absurd hi (by simp)
  | cons t ts ih =>
    match i with
    | 0 => rfl
    | j + 1 =>
      have : count0 + 1 + j + 1 = count0 + (j + 1) + 1 := by omega
      simpa [taskLinesFrom, ← this] using ih (count0 + 1) j (by simpa using hi)

/-! ## Claim theorems -/

/-- C1: the single classification pass of
`RevisionStatusReport.generate_report` puts each revision in exactly one of
three buckets: `meets_acceptance_criteria = true` goes to the accepted
bucket regardless of the WIP flag; `meets_acceptance_criteria = false` with
`is_wip = true` goes to neither bucket; everything else goes to the todo
bucket; the accepted and todo buckets are mutually exclusive. -/
theorem c1_single_pass_classification (revs : List Revision) :
    (scanRevisions revs).revisions_accepted = revs.filter isAccepted ∧
    (scanRevisions revs).revisions_todo = revs.filter isTodo ∧
    (∀ r ∈ revs, r.meets_acceptance_criteria = true →
      r ∈ (scanRevisions revs).revisions_accepted ∧
        r ∉ (scanRevisions revs).revisions_todo) ∧
    (∀ r ∈ revs, r.meets_acceptance_criteria = false → r.is_wip = true →
      r ∉ (scanRevisions revs).revisions_accepted ∧
        r ∉ (scanRevisions revs).revisions_todo) ∧
    (∀ r ∈ revs, r.meets_acceptance_criteria = false → r.is_wip = false →
      r ∈ (scanRevisions revs).revisions_todo ∧
        r ∉ (scanRevisions revs).revisions_accepted) ∧
    (∀ r : Revision, ¬(r ∈ (scanRevisions revs).revisions_accepted ∧
      r ∈ (scanRevisions revs).revisions_todo)) := by
  unfold scanRevisions
  rw [scanFrom_spec]
  simp only [List.nil_append]
  refine ⟨by trivial, by trivial, ?c, ?d, ?e, ?f⟩
  · intro r hr hm
    constructor
    · exact List.mem_filter.mpr ⟨hr, by simp [isAccepted, hm]⟩
    · intro hmem
      have h2 := (List.mem_filter.mp hmem).2
      simp [isTodo, hm] at h2
  · intro r hr hm hw
    constructor
    · intro hmem
      have h2 := (List.mem_filter.mp hmem).2
      simp [isAccepted, hm] at h2
    · intro hmem
      have h2 := (List.mem_filter.mp hmem).2
      simp [isTodo, hm, hw] at h2
  · intro r hr hm hw
    constructor
    · exact List.mem_filter.mpr ⟨hr, by simp [isTodo, hm, hw]⟩
    · intro hmem
      have h2 := (List.mem_filter.mp hmem).2
      simp [isAccepted, hm] at h2
  · intro r hmem
    have h1 := (List.mem_filter.mp hmem.1).2
    have h2 := (List.mem_filter.mp hmem.2).2
    simp [isAccepted] at h1
    simp [isTodo, h1] at h2

/-- Witness for C1 at a concrete input: an accepted-though-WIP revision
lands in the accepted bucket and not in the todo bucket. -/
theorem c1_single_pass_classification_witness :
    revAccepted ∈ (scanRevisions [revAccepted, revTodo, revWip]).revisions_accepted ∧
      revAccepted ∉ (scanRevisions [revAccepted, revTodo, revWip]).revisions_todo :=
  (c1_single_pass_classification [revAccepted, revTodo, revWip]).2.2.1
    revAccepted (by decide) (by decide)

/-- C2 counterexample: the identifier accumulators are instance state created
in `__init__`, not at the start of `generate_report`; a second call with the
same fetched revisions leaves the accumulator holding the harvested
identifiers twice, so it does not observe the same accumulator contents as
the first call. -/
theorem c2_fresh_state_counterexample :
    ((RevisionStatusReport.generate_report demoGetUsers demoGetRepos
        ((RevisionStatusReport.generate_report demoGetUsers demoGetRepos
          RevisionStatusReport.init [revAccepted]).2) [revAccepted]).2).user_phids ≠
      ((RevisionStatusReport.generate_report demoGetUsers demoGetRepos
        RevisionStatusReport.init [revAccepted]).2).user_phids := by
  decide

/-- C2 amended: each `generate_report` call appends the harvested user and
repository identifiers to the accumulators carried on the instance (so state
does survive from one call into the next), while both lookup tables are
rebuilt from scratch (overwritten) on every call from the accumulated
lists. -/
theorem c2_accumulators_persist (gu : List String → String → Option User)
    (gr : List String → String → Option Repo) (self : RevisionStatusReport)
    (revs : List Revision) :
    (RevisionStatusReport.generate_report gu gr self revs).2 =
      { repo_phids := self.repo_phids ++ harvestRepos revs,
        user_phids := self.user_phids ++ harvestUsers revs,
        users_lookup := some (gu (self.user_phids ++ harvestUsers revs)),
        repos_lookup := some (gr (self.repo_phids ++ harvestRepos revs)) } := by
  simp [RevisionStatusReport.generate_report, scanFrom_spec]

/-- C3 counterexample: the cutoff computed at line 53 zeroes only `hour`,
`minute` and `second`; with a non-zero microsecond part in `now`, not every
sub-day component of the cutoff is zero. -/
theorem c3_cutoff_counterexample :
    ¬((dateCreated demoNow 30).hour = 0 ∧ (dateCreated demoNow 30).minute = 0 ∧
      (dateCreated demoNow 30).second = 0 ∧
      (dateCreated demoNow 30).microsecond = 0) := by
  decide

/-- C3 amended: the cutoff is `now` minus the configured number of days with
`hour`, `minute` and `second` zeroed, but the microsecond component is left
at its original value rather than being truncated. -/
theorem c3_cutoff_amended (now : DateTime) (threshold_days : Nat) :
    (dateCreated now threshold_days).hour = 0 ∧
    (dateCreated now threshold_days).minute = 0 ∧
    (dateCreated now threshold_days).second = 0 ∧
    (dateCreated now threshold_days).microsecond = now.microsecond ∧
    (dateCreated now threshold_days).day = now.day - threshold_days := by
  simp [dateCreated, DateTime.subDays, DateTime.replaceHMS]

/-- C9: when every fetched revision is skipped (WIP without meeting
acceptance criteria) — in particular when none are fetched — both buckets
are empty and `generate_report` returns the empty text with no section
headers. -/
theorem c9_empty_report (gu : List String → String → Option User)
    (gr : List String → String → Option Repo) (self : RevisionStatusReport)
    (revs : List Revision)
    (h : ∀ r ∈ revs, r.meets_acceptance_criteria = false ∧ r.is_wip = true) :
    (RevisionStatusReport.generate_report gu gr self revs).1 = some "" := by
  have hacc : revs.filter isAccepted = [] :=
    List.filter_eq_nil_iff.mpr fun r hr => by simp [isAccepted, (h r hr).1]
  have htodo : revs.filter isTodo = [] :=
    List.filter_eq_nil_iff.mpr fun r hr => by simp [isTodo, (h r hr).1, (h r hr).2]
  simp [RevisionStatusReport.generate_report, scanFrom_spec, hacc, htodo,
    generateReportText, generateReportLines, acceptedPart, todoPart,
    String.intercalate]

/-- Witness for C9: a single WIP revision yields the empty report text. -/
theorem c9_empty_report_witness :
    (RevisionStatusReport.generate_report demoGetUsers demoGetRepos
      RevisionStatusReport.init [revWip]).1 = some "" :=
  c9_empty_report demoGetUsers demoGetRepos RevisionStatusReport.init [revWip]
    (by decide)

/-- C7: for every rendered revision, the second indented reviewer-status
line exists iff the revision has at least one acceptor or blocker: with
neither there is no second line (not an empty clause); with only blockers
the line is exactly the blocker clause (no accepted-clause text); with only
acceptors it is exactly the acceptor clause; with both, the acceptor clause
comes first and the clauses are joined by the literal `"; "` on one line. -/
theorem c7_reviewer_status_line (users_lookup : String → Option User)
    (repos_lookup : String → Option Repo) (r : Revision) (count : Nat)
    (ls : List String)
    (hf : formatRevision users_lookup repos_lookup r count = some ls) :
    ∃ repo author acceptors blockers,
      repos_lookup r.repo_phid = some repo ∧
      users_lookup r.author_phid = some author ∧
      mapOpt (lookupName users_lookup) r.acceptor_phids = some acceptors ∧
      mapOpt (lookupName users_lookup) r.blocker_phids = some blockers ∧
      acceptors.length = r.acceptor_phids.length ∧
      blockers.length = r.blocker_phids.length ∧
      (r.acceptor_phids = [] → r.blocker_phids = [] →
        ls = [revisionLine1 r count repo author, ""]) ∧
      (r.acceptor_phids = [] → r.blocker_phids ≠ [] →
        ls = [revisionLine1 r count repo author,
          "    " ++ blockedClause blockers, ""]) ∧
      (r.acceptor_phids ≠ [] → r.blocker_phids = [] →
        ls = [revisionLine1 r count repo author,
          "    " ++ acceptedClause acceptors, ""]) ∧
      (r.acceptor_phids ≠ [] → r.blocker_phids ≠ [] →
        ls = [revisionLine1 r count repo author,
          "    " ++ (acceptedClause acceptors ++ "; " ++ blockedClause blockers),
          ""]) := by
  unfold formatRevision at hf
  cases h1 : repos_lookup r.repo_phid <;> rw [h1] at hf <;>
    cases h2 : users_lookup r.author_phid <;> rw [h2] at hf <;>
    cases h3 : mapOpt (lookupName users_lookup) r.acceptor_phids <;> rw [h3] at hf <;>
    cases h4 : mapOpt (lookupName users_lookup) r.blocker_phids <;> rw [h4] at hf <;>
    simp only [reduceCtorEq] at hf
  rename_i repo author acceptors blockers
  obtain rfl := Option.some_inj.mp hf
  refine ⟨repo, author, acceptors, blockers, rfl, rfl, rfl, rfl,
    mapOpt_length h3, mapOpt_length h4, ?none2, ?blk, ?acc, ?both⟩
  · intro ha hb
    have la : acceptors = [] :=
      List.length_eq_zero.mp (by rw [mapOpt_length h3, ha]; rfl)
    have lb : blockers = [] :=
      List.length_eq_zero.mp (by rw [mapOpt_length h4, hb]; rfl)
    simp [formatLines, reviewersMsg, la, lb]
  · intro ha hb
    have la : acceptors = [] :=
      List.length_eq_zero.mp (by rw [mapOpt_length h3, ha]; rfl)
    have lb : 0 < blockers.length := by
      rw [mapOpt_length h4]
      exact List.length_pos.mpr hb
    simp [formatLines, reviewersMsg, la, lb, String.join]
  · intro ha hb
    have la : 0 < acceptors.length := by
      rw [mapOpt_length h3]
      exact List.length_pos.mpr ha
    have lb : blockers = [] :=
      List.length_eq_zero.mp (by rw [mapOpt_length h4, hb]; rfl)
    simp [formatLines, reviewersMsg, la, lb, String.join]
  · intro ha hb
    have la : 0 < acceptors.length := by
      rw [mapOpt_length h3]
      exact List.length_pos.mpr ha
    have lb : 0 < blockers.length := by
      rw [mapOpt_length h4]
      exact List.length_pos.mpr hb
    simp [formatLines, reviewersMsg, la, lb, String.join, String.append_assoc]

/-- Witness for C7 at a concrete revision with one blocker and no acceptor:
the second line is exactly the indented blocker clause. -/
theorem c7_reviewer_status_line_witness :
    ∃ repo author acceptors blockers,
      demoGetRepos [] revTodo.repo_phid = some repo ∧
      demoGetUsers [] revTodo.author_phid = some author ∧
      mapOpt (lookupName (demoGetUsers [])) revTodo.acceptor_phids = some acceptors ∧
      mapOpt (lookupName (demoGetUsers [])) revTodo.blocker_phids = some blockers ∧
      acceptors.length = revTodo.acceptor_phids.length ∧
      blockers.length = revTodo.blocker_phids.length ∧
      (revTodo.acceptor_phids = [] → revTodo.blocker_phids = [] →
        formatLines revTodo 1 { readable_name := "repo-repoB" }
            { name := "user-carol" } [] ["`user-dave`"] =
          [revisionLine1 revTodo 1 repo author, ""]) ∧
      (revTodo.acceptor_phids = [] → revTodo.blocker_phids ≠ [] →
        formatLines revTodo 1 { readable_name := "repo-repoB" }
            { name := "user-carol" } [] ["`user-dave`"] =
          [revisionLine1 revTodo 1 repo author,
            "    " ++ blockedClause blockers, ""]) ∧
      (revTodo.acceptor_phids ≠ [] → revTodo.blocker_phids = [] →
        formatLines revTodo 1 { readable_name := "repo-repoB" }
            { name := "user-carol" } [] ["`user-dave`"] =
          [revisionLine1 revTodo 1 repo author,
            "    " ++ acceptedClause acceptors, ""]) ∧
      (revTodo.acceptor_phids ≠ [] → revTodo.blocker_phids ≠ [] →
        formatLines revTodo 1 { readable_name := "repo-repoB" }
            { name := "user-carol" } [] ["`user-dave`"] =
          [revisionLine1 revTodo 1 repo author,
            "    " ++ (acceptedClause acceptors ++ "; " ++ blockedClause blockers),
            ""]) :=
  c7_reviewer_status_line (demoGetUsers []) (demoGetRepos []) revTodo 1
    (formatLines revTodo 1 { readable_name := "repo-repoB" }
      { name := "user-carol" } [] ["`user-dave`"]) rfl

/-- C8: a fetched task is rendered iff its identifier is not in the static
exclusion set and no custom exclusion predicate returns true for it (so an
excluded identifier is never rendered even if every predicate returns
false); the survivors keep the fetch order (they form a sublist) and are
numbered consecutively from 1 below the header. -/
theorem c8_task_filter_order_numbering (project_name : String)
    (columns : List String) (excluded_tasks : List Nat)
    (custom_exclusions : List (Task → Bool)) (maniphest_tasks : List Task) :
    (maniphest_tasks.filter
      (shouldInclude excluded_tasks custom_exclusions)).Sublist maniphest_tasks ∧
    (∀ t : Task,
      t ∈ maniphest_tasks.filter (shouldInclude excluded_tasks custom_exclusions) ↔
        (t ∈ maniphest_tasks ∧ excluded_tasks.contains t.id_ = false ∧
          ∀ f ∈ custom_exclusions, f t = false)) ∧
    (∀ t ∈ maniphest_tasks, excluded_tasks.contains t.id_ = true →
      t ∉ maniphest_tasks.filter (shouldInclude excluded_tasks custom_exclusions)) ∧
    upcomingReportLines project_name columns excluded_tasks custom_exclusions
        maniphest_tasks =
      upcomingHeader project_name columns ::
        taskLinesFrom 0
          (maniphest_tasks.filter (shouldInclude excluded_tasks custom_exclusions)) ∧
    (∀ i (hi : i <
        (maniphest_tasks.filter (shouldInclude excluded_tasks custom_exclusions)).length),
      (taskLinesFrom 0
          (maniphest_tasks.filter (shouldInclude excluded_tasks custom_exclusions))).get? i =
        some (taskLine (i + 1)
          ((maniphest_tasks.filter
            (shouldInclude excluded_tasks custom_exclusions)).get ⟨i, hi⟩))) := by
  refine ⟨List.filter_sublist _, ?memiff, ?excl, rfl, ?num⟩
  · intro t
    rw [List.mem_filter]
    constructor
    · rintro ⟨ht, hs⟩
      simp only [shouldInclude, Bool.and_eq_true, Bool.not_eq_true',
        List.any_eq_false, Bool.not_eq_true] at hs
      exact ⟨ht, hs.1, hs.2⟩
    · rintro ⟨ht, hc, hf⟩
      refine ⟨ht, ?s⟩
      simp only [shouldInclude, Bool.and_eq_true, Bool.not_eq_true',
        List.any_eq_false, Bool.not_eq_true]
      exact ⟨hc, hf⟩
  · intro t ht hc hmem
    have hs := (List.mem_filter.mp hmem).2
    simp only [shouldInclude, Bool.and_eq_true, Bool.not_eq_true'] at hs
    rw [hc] at hs
    exact Bool.noConfusion hs.1
  · intro i hi
    simpa using taskLinesFrom_get?
      (maniphest_tasks.filter (shouldInclude excluded_tasks custom_exclusions)) 0 i hi

/-- Witness for C8 at concrete inputs: a task whose identifier is in the
static exclusion set is not rendered even though every predicate rejects
nothing about it. -/
theorem c8_task_filter_order_numbering_witness :
    taskExcluded ∉ [taskKeep, taskExcluded, taskCustomExcluded].filter
      (shouldInclude [42] [demoCustomExclusion]) :=
  (c8_task_filter_order_numbering "Engineering" ["Up Next"] [42]
    [demoCustomExclusion] [taskKeep, taskExcluded, taskCustomExcluded]).2.2.1
    taskExcluded (by decide) (by decide)

/-- C10: for every fetched task list — empty or entirely filtered out — the
tasks-due report text is non-empty and starts with the header line naming
the project and the comma-joined column names; the header is always the
first line of the report. -/
theorem c10_header_always_rendered (project_name : String)
    (columns : List String) (excluded_tasks : List Nat)
    (custom_exclusions : List (Task → Bool)) (maniphest_tasks : List Task) :
    (upcomingReportLines project_name columns excluded_tasks custom_exclusions
        maniphest_tasks).head? = some (upcomingHeader project_name columns) ∧
    (∃ rest, upcomingGenerateReport project_name columns excluded_tasks
        custom_exclusions maniphest_tasks =
      upcomingHeader project_name columns ++ rest) ∧
    upcomingGenerateReport project_name columns excluded_tasks
      custom_exclusions maniphest_tasks ≠ "" := by
  obtain ⟨rest, hrest⟩ := intercalate_cons_head
    (upcomingHeader project_name columns)
    (taskLinesFrom 0
      (maniphest_tasks.filter (shouldInclude excluded_tasks custom_exclusions)))
  have htext : upcomingGenerateReport project_name columns excluded_tasks
      custom_exclusions maniphest_tasks =
      upcomingHeader project_name columns ++ rest := by
    simpa [upcomingGenerateReport, upcomingReportLines] using hrest
  refine ⟨rfl, ⟨rest, htext⟩, ?nonempty⟩
  have hstar : ("*" : String).length = 1 := rfl
  have hlen : 0 < (upcomingHeader project_name columns).length := by
    simp only [upcomingHeader, String.length_append, hstar]
    omega
  intro hempty
  rw [hempty] at htext
  have hzero := congrArg String.length htext
  simp only [String.length_append] at hzero
  have : ("" : String).length = 0 := rfl
  omega

/-- C5 counterexample: the harvesting pass collects only reviewer, author
and repository identifiers, so an acceptor identifier that is not among any
revision's reviewers (here `"ghost"`) is never requested from the lookup
collaborator; even though the collaborator returns an entry for every
identifier it is asked for (conjuncts two and three), the rendered accepted
revision references an identifier absent from its lookup table (conjunct
four). -/
theorem c5_stray_acceptor_counterexample :
    revStrayAcceptor ∈ (scanRevisions [revStrayAcceptor]).revisions_accepted ∧
    (∀ p ∈ (scanRevisions [revStrayAcceptor]).user_phids,
      (memGetUsers (scanRevisions [revStrayAcceptor]).user_phids p).isSome = true) ∧
    (∀ p ∈ (scanRevisions [revStrayAcceptor]).repo_phids,
      (memGetRepos (scanRevisions [revStrayAcceptor]).repo_phids p).isSome = true) ∧
    revisionResolved (memGetUsers (scanRevisions [revStrayAcceptor]).user_phids)
      (memGetRepos (scanRevisions [revStrayAcceptor]).repo_phids)
      revStrayAcceptor = false := by
  decide

/-- C5 amended: provided every acceptor and blocker identifier of each
revision in either rendered bucket is among that revision's reviewer
identifiers, and the lookup collaborators return an entry for every
identifier they are asked for, every identifier referenced while rendering
a revision of either bucket — author, acceptors, blockers and repository —
is present in its lookup table (the harvesting pass covers skipped WIP
revisions too, and nothing is assumed about skipped revisions' acceptors
or blockers). -/
theorem c5_harvest_covers_rendering
    (gu : List String → String → Option User)
    (gr : List String → String → Option Repo) (self : RevisionStatusReport)
    (revs : List Revision)
    (hu : ∀ (phids : List String) (p : String), p ∈ phids →
      (gu phids p).isSome = true)
    (hrep : ∀ (phids : List String) (p : String), p ∈ phids →
      (gr phids p).isSome = true)
    (hacc : ∀ r ∈ (scanFrom ⟨[], [], self.user_phids, self.repo_phids⟩ revs).revisions_accepted ++
        (scanFrom ⟨[], [], self.user_phids, self.repo_phids⟩ revs).revisions_todo,
      ∀ p ∈ r.acceptor_phids, p ∈ r.reviewer_phids)
    (hblk : ∀ r ∈ (scanFrom ⟨[], [], self.user_phids, self.repo_phids⟩ revs).revisions_accepted ++
        (scanFrom ⟨[], [], self.user_phids, self.repo_phids⟩ revs).revisions_todo,
      ∀ p ∈ r.blocker_phids, p ∈ r.reviewer_phids) :
    ∀ r ∈ (scanFrom ⟨[], [], self.user_phids, self.repo_phids⟩ revs).revisions_accepted ++
        (scanFrom ⟨[], [], self.user_phids, self.repo_phids⟩ revs).revisions_todo,
      revisionResolved
        (gu (scanFrom ⟨[], [], self.user_phids, self.repo_phids⟩ revs).user_phids)
        (gr (scanFrom ⟨[], [], self.user_phids, self.repo_phids⟩ revs).repo_phids)
        r = true := by
  intro r hmem
  have hacc' := hacc r hmem
  have hblk' := hblk r hmem
  rw [scanFrom_spec] at hmem ⊢
  simp only [List.nil_append] at hmem ⊢
  have hrev : r ∈ revs := by
    rcases List.mem_append.mp hmem with hm | hm
    · exact List.mem_of_mem_filter hm
    · exact List.mem_of_mem_filter hm
  have hu' : ∀ p ∈ harvestUsers revs,
      (gu (self.user_phids ++ harvestUsers revs) p).isSome = true :=
    fun p hp => hu _ p (List.mem_append.mpr (Or.inr hp))
  simp only [revisionResolved, Bool.and_eq_true, List.all_eq_true]
  refine ⟨⟨⟨?repo, ?author⟩, ?acceptors⟩, ?blockers⟩
  · exact hrep _ _ (List.mem_append.mpr (Or.inr (mem_harvestRepos hrev)))
  · exact hu' _ (mem_harvestUsers_author hrev)
  · exact fun p hp =>
      hu' p (mem_harvestUsers_reviewer hrev (hacc' p hp))
  · exact fun p hp =>
      hu' p (mem_harvestUsers_reviewer hrev (hblk' p hp))

/-- Witness for C5 amended: with domain-exact lookup collaborators and two
revisions whose acceptors and blockers are reviewers, the rendered accepted
revision has all its referenced identifiers in the lookup tables. -/
theorem c5_harvest_covers_rendering_witness :
    revisionResolved
      (memGetUsers (scanFrom ⟨[], [], [], []⟩ [revAccepted, revTodo]).user_phids)
      (memGetRepos (scanFrom ⟨[], [], [], []⟩ [revAccepted, revTodo]).repo_phids)
      revAccepted = true :=
  c5_harvest_covers_rendering memGetUsers memGetRepos RevisionStatusReport.init
    [revAccepted, revTodo]
    (by
      intro phids p hp
      simp [memGetUsers, List.elem_eq_mem, hp])
    (by
      intro phids p hp
      simp [memGetRepos, List.elem_eq_mem, hp])
    (by decide) (by decide) revAccepted (by decide)

theorem isSome_of_map (f : α → β) (o : Option α) :
    (o.map f).isSome = o.isSome := by
  cases o <;> rfl

/-- The report line list resolves exactly when both section parts do. -/
theorem generateReportLines_isSome (users_lookup : String → Option User)
    (repos_lookup : String → Option Repo)
    (revisions_accepted revisions_todo : List Revision) :
    (generateReportLines users_lookup repos_lookup revisions_accepted
      revisions_todo).isSome =
    ((acceptedPart users_lookup repos_lookup revisions_accepted).isSome &&
      (todoPart users_lookup repos_lookup revisions_accepted
        revisions_todo).isSome) := by
  unfold generateReportLines
  cases acceptedPart users_lookup repos_lookup revisions_accepted <;>
    cases todoPart users_lookup repos_lookup revisions_accepted revisions_todo <;>
    simp

/-- The accepted section resolves exactly when every accepted revision
does. -/
theorem acceptedPart_isSome (users_lookup : String → Option User)
    (repos_lookup : String → Option Repo) (revisions_accepted : List Revision) :
    (acceptedPart users_lookup repos_lookup revisions_accepted).isSome =
      revisions_accepted.all (revisionResolved users_lookup repos_lookup) := by
  unfold acceptedPart
  by_cases h : revisions_accepted.length > 0
  · rw [if_pos h]
    have hs := blocksFrom_isSome users_lookup repos_lookup 0
      (sortAccepted revisions_accepted)
    rw [all_sortAccepted] at hs
    rw [← hs]
    cases blocksFrom users_lookup repos_lookup 0 (sortAccepted revisions_accepted) <;>
      simp
  · rw [if_neg h]
    have he : revisions_accepted = [] := List.length_eq_zero.mp (by omega)
    simp [he]

/-- The needs-review section resolves exactly when every todo revision
does. -/
theorem todoPart_isSome (users_lookup : String → Option User)
    (repos_lookup : String → Option Repo)
    (revisions_accepted revisions_todo : List Revision) :
    (todoPart users_lookup repos_lookup revisions_accepted
      revisions_todo).isSome =
      revisions_todo.all (revisionResolved users_lookup repos_lookup) := by
  unfold todoPart
  by_cases h : revisions_todo.length > 0
  · rw [if_pos h]
    have hs := blocksFrom_isSome users_lookup repos_lookup 0
      (sortTodo revisions_todo)
    rw [all_sortTodo] at hs
    rw [← hs]
    cases blocksFrom users_lookup repos_lookup 0 (sortTodo revisions_todo) <;>
      simp
  · rw [if_neg h]
    have he : revisions_todo = [] := List.length_eq_zero.mp (by omega)
    simp [he]

/-- C6: `generate_report` is all-or-nothing. It returns the complete text
(`isSome`) exactly when every revision of both rendered buckets resolves
all its referenced identifiers against the lookup tables; a single lookup
miss anywhere makes the whole call fail (`none`) with no partial text, not
a per-revision skip. -/
theorem c6_all_or_nothing (gu : List String → String → Option User)
    (gr : List String → String → Option Repo) (self : RevisionStatusReport)
    (revs : List Revision) :
    ((RevisionStatusReport.generate_report gu gr self revs).1).isSome =
      (((scanFrom ⟨[], [], self.user_phids, self.repo_phids⟩ revs).revisions_accepted ++
        (scanFrom ⟨[], [], self.user_phids, self.repo_phids⟩ revs).revisions_todo).all
        (revisionResolved
          (gu (scanFrom ⟨[], [], self.user_phids, self.repo_phids⟩ revs).user_phids)
          (gr (scanFrom ⟨[], [], self.user_phids, self.repo_phids⟩ revs).repo_phids))) := by
  simp only [RevisionStatusReport.generate_report, generateReportText,
    isSome_of_map, generateReportLines_isSome, acceptedPart_isSome,
    todoPart_isSome, List.all_append]

/-- C4: when every rendered revision resolves, the report lines are the
accepted section (rendered only if non-empty: header, blocks over the
accepted bucket sorted ascending by modification timestamp, trailing
blank) followed by the needs-review section (rendered only if non-empty:
preceded by a blank separator line exactly when the accepted section was
rendered, then header and blocks over the todo bucket sorted descending);
each section's rendered lists are permutations of their buckets and each
section's block sequence numbers restart at 1. -/
theorem c4_sorted_numbered_sections (users_lookup : String → Option User)
    (repos_lookup : String → Option Repo)
    (revisions_accepted revisions_todo : List Revision)
    (h : ∀ r ∈ revisions_accepted ++ revisions_todo,
      revisionResolved users_lookup repos_lookup r = true) :
    ∃ ablocks tblocks,
      blocksFrom users_lookup repos_lookup 0 (sortAccepted revisions_accepted) =
        some ablocks ∧
      blocksFrom users_lookup repos_lookup 0 (sortTodo revisions_todo) =
        some tblocks ∧
      (sortAccepted revisions_accepted).Perm revisions_accepted ∧
      List.Sorted (fun a b : Revision => a.modified_ts ≤ b.modified_ts)
        (sortAccepted revisions_accepted) ∧
      (sortTodo revisions_todo).Perm revisions_todo ∧
      List.Sorted (fun a b : Revision => b.modified_ts ≤ a.modified_ts)
        (sortTodo revisions_todo) ∧
      ablocks.length = revisions_accepted.length ∧
      tblocks.length = revisions_todo.length ∧
      (∀ i (hi : i < ablocks.length), ∃ rest,
        (ablocks.get ⟨i, hi⟩).head? = some (toString (i + 1) ++ ". " ++ rest)) ∧
      (∀ i (hi : i < tblocks.length), ∃ rest,
        (tblocks.get ⟨i, hi⟩).head? = some (toString (i + 1) ++ ". " ++ rest)) ∧
      generateReportLines users_lookup repos_lookup revisions_accepted
          revisions_todo =
        some ((if revisions_accepted.length > 0 then
            acceptedHeader :: ablocks.flatten ++ [""]
          else []) ++
          (if revisions_todo.length > 0 then
            (if revisions_accepted.length > 0 then [""] else []) ++
              todoHeader :: tblocks.flatten ++ [""]
          else [])) := by
  have havals : (sortAccepted revisions_accepted).all
      (revisionResolved users_lookup repos_lookup) = true := by
    rw [all_sortAccepted]
    exact List.all_eq_true.mpr fun r hr =>
      h r (List.mem_append.mpr (Or.inl hr))
  have htvals : (sortTodo revisions_todo).all
      (revisionResolved users_lookup repos_lookup) = true := by
    rw [all_sortTodo]
    exact List.all_eq_true.mpr fun r hr =>
      h r (List.mem_append.mpr (Or.inr hr))
  obtain ⟨ablocks, habs⟩ : ∃ bs,
      blocksFrom users_lookup repos_lookup 0 (sortAccepted revisions_accepted) =
        some bs := by
    have := blocksFrom_isSome users_lookup repos_lookup 0
      (sortAccepted revisions_accepted)
    rw [havals] at this
    exact Option.isSome_iff_exists.mp this
  obtain ⟨tblocks, htbs⟩ : ∃ bs,
      blocksFrom users_lookup repos_lookup 0 (sortTodo revisions_todo) =
        some bs := by
    have := blocksFrom_isSome users_lookup repos_lookup 0
      (sortTodo revisions_todo)
    rw [htvals] at this
    exact Option.isSome_iff_exists.mp this
  obtain ⟨halen, hanum⟩ := blocksFrom_numbering habs
  obtain ⟨htlen, htnum⟩ := blocksFrom_numbering htbs
  refine ⟨ablocks, tblocks, habs, htbs, sortAccepted_perm _,
    sortAccepted_sorted _, sortTodo_perm _, sortTodo_sorted _,
    by rw [halen]; exact (sortAccepted_perm _).length_eq,
    by rw [htlen]; exact (sortTodo_perm _).length_eq,
    ?anum, ?tnum, ?lines⟩
  · intro i hi
    obtain ⟨rest, hrest⟩ := hanum i hi
    exact ⟨rest, by simpa using hrest⟩
  · intro i hi
    obtain ⟨rest, hrest⟩ := htnum i hi
    exact ⟨rest, by simpa using hrest⟩
  · by_cases hra : revisions_accepted.length > 0 <;>
      by_cases hrt : revisions_todo.length > 0 <;>
      simp [generateReportLines, acceptedPart, todoPart, habs, htbs, hra, hrt]

/-- Witness for C4 at concrete inputs: two accepted revisions (out of
timestamp order) and one todo revision, with lookups that resolve every
identifier. -/
theorem c4_sorted_numbered_sections_witness :
    ∃ ablocks tblocks,
      blocksFrom (demoGetUsers []) (demoGetRepos []) 0
        (sortAccepted [revAccepted, revAccepted2]) = some ablocks ∧
      blocksFrom (demoGetUsers []) (demoGetRepos []) 0
        (sortTodo [revTodo]) = some tblocks ∧
      (sortAccepted [revAccepted, revAccepted2]).Perm [revAccepted, revAccepted2] ∧
      List.Sorted (fun a b : Revision => a.modified_ts ≤ b.modified_ts)
        (sortAccepted [revAccepted, revAccepted2]) ∧
      (sortTodo [revTodo]).Perm [revTodo] ∧
      List.Sorted (fun a b : Revision => b.modified_ts ≤ a.modified_ts)
        (sortTodo [revTodo]) ∧
      ablocks.length = ([revAccepted, revAccepted2] : List Revision).length ∧
      tblocks.length = ([revTodo] : List Revision).length ∧
      (∀ i (hi : i < ablocks.length), ∃ rest,
        (ablocks.get ⟨i, hi⟩).head? = some (toString (i + 1) ++ ". " ++ rest)) ∧
      (∀ i (hi : i < tblocks.length), ∃ rest,
        (tblocks.get ⟨i, hi⟩).head? = some (toString (i + 1) ++ ". " ++ rest)) ∧
      generateReportLines (demoGetUsers []) (demoGetRepos [])
          [revAccepted, revAccepted2] [revTodo] =
        some ((if ([revAccepted, revAccepted2] : List Revision).length > 0 then
            acceptedHeader :: ablocks.flatten ++ [""]
          else []) ++
          (if ([revTodo] : List Revision).length > 0 then
            (if ([revAccepted, revAccepted2] : List Revision).length > 0 then [""]
              else []) ++ todoHeader :: tblocks.flatten ++ [""]
          else [])) :=
  c4_sorted_numbered_sections (demoGetUsers []) (demoGetRepos [])
    [revAccepted, revAccepted2] [revTodo] (by decide)

end Phablytics
